import Mathlib

namespace Packr2

/-- Width/height pair, embedding the source's `Size` (`src/lib.rs`).
`u32` fields are modelled as `Nat`; all arithmetic the theorems touch is
bounds-checked in the source before it can overflow. -/
structure Size where
  w : Nat
  h : Nat
deriving Repr, DecidableEq

/-- `Size::ZERO` (`src/lib.rs`). -/
def Size.ZERO : Size := ⟨0, 0⟩

/-- `Size::area` (`src/lib.rs`): `w as u64 * h as u64`. -/
def Size.area (s : Size) : Nat := s.w * s.h

/-- `Size::perimeter` (`src/lib.rs`). -/
def Size.perimeter (s : Size) : Nat := 2 * s.w + 2 * s.h

/-- `Size::max_side` (`src/lib.rs`). -/
def Size.maxSide (s : Size) : Nat := if s.h > s.w then s.h else s.w

/-- `Size::min_side` (`src/lib.rs`). -/
def Size.minSide (s : Size) : Nat := if s.h < s.w then s.h else s.w

/-- `Size::pathological_mult` (`src/lib.rs`): `max_side / min_side * area`.
The source computes this in `f32`; it is modelled exactly over `ℚ`
(division by zero yields `0` in `ℚ`, where `f32` would yield inf/NaN —
the theorems below do not depend on that corner). -/
def Size.pathologicalMult (s : Size) : ℚ :=
  (s.maxSide : ℚ) / (s.minSide : ℚ) * (s.area : ℚ)

/-- Axis-aligned rectangle, embedding the source's `Rect` (`src/lib.rs`). -/
structure Rect where
  x : Nat
  y : Nat
  w : Nat
  h : Nat
deriving Repr, DecidableEq

/-- `Rect::area` (`src/lib.rs`). -/
def Rect.area (r : Rect) : Nat := r.w * r.h

/-- `Rect::bottom` (`src/lib.rs`): `y + h - 1`, inclusive; the source marks
this "badly defined" for `h = 0` (panics/underflows there), so theorems that
reach it carry `1 ≤ h` hypotheses. -/
def Rect.bottom (r : Rect) : Nat := r.y + r.h - 1

/-- `Rect::right` (`src/lib.rs`): `x + w - 1`, inclusive (same caveat as
`Rect.bottom` for `w = 0`). -/
def Rect.right (r : Rect) : Nat := r.x + r.w - 1

/-- Placement result, embedding the source's `Rectf` (`src/lib.rs`). -/
structure Rectf where
  x : Nat
  y : Nat
  w : Nat
  h : Nat
  flipped : Bool
deriving Repr, DecidableEq

/-- `Rectf::from_rect` (`src/lib.rs`). -/
def Rectf.fromRect (r : Rect) (flipped : Bool) : Rectf :=
  ⟨r.x, r.y, r.w, r.h, flipped⟩

/-- `Size::expand_with` (`src/lib.rs`): grow the tracked bounding box to
cover a placed rectangle (call sites on a `Rectf` go through its `Rect`
part, as Rust's deref coercion does). -/
def Size.expandWith (s : Size) (r : Rect) : Size :=
  ⟨max s.w (r.x + r.w), max s.h (r.y + r.h)⟩

/-- Packer configuration, embedding `PackerConfig` (`src/lib.rs`). -/
structure PackerConfig where
  maxWidth : Nat
  maxHeight : Nat
  allowFlipping : Bool
deriving Repr, DecidableEq

/-! ### Stable sorting, modelling `Vec::sort_by`

Rust's `sort_by` is a stable sort driven by a comparator; an element `a` may
stay before `b` exactly when `cmp a b ≠ Greater`. It is modelled here as a
stable insertion sort (any stable sort agrees with it on consistent
comparators; only stability is relied upon). -/

/-- Insert `x` into `l` before the first element `y` with `le x y`. -/
def insertSorted (le : α → α → Bool) (x : α) : List α → List α
  | [] => [x]
  | y :: ys => if le x y then x :: y :: ys else y :: insertSorted le x ys

/-- Stable insertion sort: earlier elements are inserted later, and stop in
front of equal ones, preserving their original relative order. -/
def sortByLe (le : α → α → Bool) : List α → List α
  | [] => []
  | x :: xs => insertSorted le x (sortByLe le xs)

/-- Stable sort by a three-way comparator, the model of `Vec::sort_by`:
`a` may precede `b` iff `cmp a b ≠ Greater`. -/
def sortByCmp (cmp : α → α → Ordering) (l : List α) : List α :=
  sortByLe (fun a b => cmp a b != Ordering.gt) l

/-! ### Strip packer (`src/strip_packer.rs`) -/

/-- State of `StripPacker` (`src/strip_packer.rs`): `cursor` is split into
its two components. -/
structure StripPacker where
  config : PackerConfig
  cursor0 : Nat
  cursor1 : Nat
  rowHeight : Nat
  overflowed : Bool
  usedArea : Size
deriving Repr, DecidableEq

/-- `StripPacker::new` (`src/strip_packer.rs`). -/
def StripPacker.new (config : PackerConfig) : StripPacker :=
  ⟨config, 0, 0, 0, false, Size.ZERO⟩

/-- `StripPacker::insert` (`src/strip_packer.rs`): returns the placement (if
any) together with the state after the call. Note the source mutates the
cursor, the row height and the sticky `overflowed` flag even on the failing
path that reaches the height check. -/
def StripPacker.insert (p : StripPacker) (w h : Nat) : Option Rectf × StripPacker :=
  if w > p.config.maxWidth then (none, p)
  else
    let p1 :=
      if p.cursor0 + w > p.config.maxWidth then
        { p with cursor0 := 0, cursor1 := p.cursor1 + p.rowHeight, rowHeight := 0 }
      else p
    let p2 := { p1 with rowHeight := max p1.rowHeight h }
    if p2.cursor1 + p2.rowHeight > p2.config.maxHeight then
      (none, { p2 with overflowed := true })
    else
      let rect : Rectf := ⟨p2.cursor0, p2.cursor1, w, h, false⟩
      (some rect,
        { p2 with
          cursor0 := p2.cursor0 + w
          usedArea := p2.usedArea.expandWith (Rect.mk rect.x rect.y rect.w rect.h) })

/-- `StripPacker::reset` (`src/strip_packer.rs`). -/
def StripPacker.reset (p : StripPacker) (resize : Option Size) : StripPacker :=
  let cfg :=
    match resize with
    | some s => { p.config with maxWidth := s.w, maxHeight := s.h }
    | none => p.config
  ⟨cfg, 0, 0, 0, false, Size.ZERO⟩

/-- `StripPacker::used_area` (`src/strip_packer.rs`). -/
def StripPacker.usedAreaFn (p : StripPacker) : Size := p.usedArea

/-! ### Split packer (`src/split_packer.rs`) -/

/-- Remainder spaces produced by one split, embedding the source's `Splits`
(`src/split_packer.rs`). The source stores a count plus a possibly
uninitialized 2-array; following the repository's own design note this is
modelled as an explicit list of the `count` valid rectangles, with `failed`
for the `count = u32::MAX` marker. -/
inductive Splits where
  | failed : Splits
  | ok : List Rect → Splits
deriving Repr, DecidableEq

/-- `Splits::is_valid` (`src/split_packer.rs`): `count <= 2`. -/
def Splits.isValid : Splits → Bool
  | .failed => false
  | .ok _ => true

/-- The `count` field of `Splits` (`src/split_packer.rs`); `failed` carries
`u32::MAX`. -/
def Splits.count : Splits → Nat
  | .failed => 2 ^ 32 - 1
  | .ok l => l.length

/-- `Splits::better_than` (`src/split_packer.rs`). -/
def Splits.betterThan (a b : Splits) : Bool := a.count < b.count

/-- The valid rectangles of a `Splits` (the first `count` entries of the
source's array). -/
def Splits.spacesOf : Splits → List Rect
  | .failed => []
  | .ok l => l

/-- `insert_and_split` (`src/split_packer.rs`): try to place a `w×h`
rectangle into the candidate free space, returning the remainder spaces. -/
def insertAndSplit (w h : Nat) (space_available : Rect) : Splits :=
  if space_available.w < w ∨ space_available.h < h then .failed
  else
    let free_w := space_available.w - w
    let free_h := space_available.h - h
    if free_w = 0 ∧ free_h = 0 then .ok []
    else if free_w > 0 ∧ free_h = 0 then
      .ok [⟨space_available.x + w, space_available.y, space_available.w - w, space_available.h⟩]
    else if free_w = 0 ∧ free_h > 0 then
      .ok [⟨space_available.x, space_available.y + h, space_available.w, space_available.h - h⟩]
    else if free_w > free_h then
      .ok [⟨space_available.x + w, space_available.y, free_w, space_available.h⟩,
           ⟨space_available.x, space_available.y + h, w, free_h⟩]
    else
      .ok [⟨space_available.x, space_available.y + h, space_available.w, free_h⟩,
           ⟨space_available.x + w, space_available.y, free_w, h⟩]

/-- Free space with cached area, embedding `Recta` (`src/split_packer.rs`). -/
structure Recta where
  rect : Rect
  area : Nat
deriving Repr, DecidableEq

/-- `From<Rect> for Recta` (`src/split_packer.rs`). -/
def Recta.ofRect (r : Rect) : Recta := ⟨r, r.w * r.h⟩

/-- State of `SplitPacker` (`src/split_packer.rs`). -/
structure SplitPacker where
  usedArea : Size
  spaces : List Recta
  config : PackerConfig
deriving Repr, DecidableEq

/-- `SplitPacker::new` (`src/split_packer.rs`). Mirrors the source exactly:
the seed free space is built with `w: config.max_width, h: config.max_width`
— the height is `max_width`, not `max_height`. -/
def SplitPacker.new (config : PackerConfig) : SplitPacker :=
  ⟨Size.ZERO, [Recta.ofRect ⟨0, 0, config.maxWidth, config.maxWidth⟩], config⟩

/-- The `accept_insert` closure of `SplitPacker::insert`
(`src/split_packer.rs`): remove the accepted space (its former neighbours
are `pre.reverse` and `rest`), push the remainder spaces, re-sort all spaces
by ascending cached area, and emit the placement at the space's corner. -/
def SplitPacker.acceptInsert (p : SplitPacker) (pre rest : List Recta)
    (candidate : Rect) (splits : Splits) (w h : Nat) (flipped : Bool) :
    Option Rectf × SplitPacker :=
  let spaces0 := (pre.reverse ++ rest) ++ (Splits.spacesOf splits).map Recta.ofRect
  let spaces1 := sortByCmp (fun a b => compare a.area b.area) spaces0
  let r : Rectf :=
    if flipped then ⟨candidate.x, candidate.y, h, w, true⟩
    else ⟨candidate.x, candidate.y, w, h, false⟩
  (some r,
    { p with
      spaces := spaces1
      usedArea := p.usedArea.expandWith (Rect.mk r.x r.y r.w r.h) })

/-- The candidate loop of `SplitPacker::insert` (`src/split_packer.rs`):
scan `rest` left to right (`pre` holds the already-rejected prefix,
reversed); at the first space admitting a valid split, accept it,
preferring the flipped orientation only when it produces strictly fewer
remainder spaces. -/
def SplitPacker.insertAux (p : SplitPacker) (w h : Nat) :
    List Recta → List Recta → Option Rectf × SplitPacker
  | _pre, [] => (none, p)
  | pre, sp :: rest =>
    let normal := insertAndSplit w h sp.rect
    if p.config.allowFlipping then
      let flippedS := insertAndSplit h w sp.rect
      if normal.isValid then
        if flippedS.isValid ∧ flippedS.betterThan normal then
          p.acceptInsert pre rest sp.rect flippedS w h true
        else p.acceptInsert pre rest sp.rect normal w h false
      else if flippedS.isValid then p.acceptInsert pre rest sp.rect flippedS w h true
      else SplitPacker.insertAux p w h (sp :: pre) rest
    else
      if normal.isValid then p.acceptInsert pre rest sp.rect normal w h false
      else SplitPacker.insertAux p w h (sp :: pre) rest

/-- `SplitPacker::insert` (`src/split_packer.rs`): first-fit scan of
`spaces` in index order, starting at index 0. -/
def SplitPacker.insert (p : SplitPacker) (w h : Nat) : Option Rectf × SplitPacker :=
  SplitPacker.insertAux p w h [] p.spaces

/-- `SplitPacker::reset` (`src/split_packer.rs`): note that, unlike `new`,
the seed free space is `max_width × max_height`. -/
def SplitPacker.reset (p : SplitPacker) (resize : Option Size) : SplitPacker :=
  let cfg :=
    match resize with
    | some s => { p.config with maxWidth := s.w, maxHeight := s.h }
    | none => p.config
  ⟨Size.ZERO, [Recta.ofRect ⟨0, 0, cfg.maxWidth, cfg.maxHeight⟩], cfg⟩

/-- `SplitPacker::used_area` (`src/split_packer.rs`). -/
def SplitPacker.usedAreaFn (p : SplitPacker) : Size := p.usedArea

/-! ### Skyline packer (`src/skyline_packer.rs`) -/

/-- One skyline segment, embedding the source's `Skyline` struct
(`src/skyline_packer.rs`). -/
structure Skyline where
  x : Nat
  y : Nat
  w : Nat
deriving Repr, DecidableEq

/-- `Skyline::right` (`src/skyline_packer.rs`): `x + w - 1`, inclusive
(ill-defined for `w = 0`, like `Rect::right`). -/
def Skyline.right (s : Skyline) : Nat := s.x + s.w - 1

/-- `u32::MAX`, the sentinel initial value of `find_skyline`'s running
`bottom` and `width`. -/
def u32MAX : Nat := 2 ^ 32 - 1

/-- State of `SkylinePacker` (`src/skyline_packer.rs`). -/
structure SkylinePacker where
  config : PackerConfig
  skylines : List Skyline
  usedArea : Size
deriving Repr, DecidableEq

/-- `SkylinePacker::new` (`src/skyline_packer.rs`). -/
def SkylinePacker.new (config : PackerConfig) : SkylinePacker :=
  ⟨config, [⟨0, 0, config.maxWidth⟩], Size.ZERO⟩

/-- The loop of `SkylinePacker::can_put` (`src/skyline_packer.rs`),
recursing over the segment suffix starting at the tested index: `x`, `w`,
`h` are the fixed candidate rectangle data, `y` the resting height so far,
`widthLeft` the width still to be covered. The source asserts (and so
panics) when the loop runs off the end of the segment list; that situation
is unreachable from states satisfying the skyline coverage invariant, and is
modelled as `none`. -/
def canPutAux (maxW maxH x w h : Nat) : Nat → Nat → List Skyline → Option Rect
  | _, _, [] => none
  | y, widthLeft, s :: rest =>
    let y1 := max y s.y
    if x + w > maxW ∨ y1 + h > maxH then none
    else if widthLeft ≤ s.w then some ⟨x, y1, w, h⟩
    else canPutAux maxW maxH x w h y1 (widthLeft - s.w) rest

/-- `SkylinePacker::can_put` (`src/skyline_packer.rs`): can a `w×h`
rectangle rest on the skyline starting at segment `i`? -/
def SkylinePacker.canPut (p : SkylinePacker) (i w h : Nat) : Option Rect :=
  match p.skylines.drop i with
  | [] => none
  | s :: rest => canPutAux p.config.maxWidth p.config.maxHeight s.x w h 0 w (s :: rest)

/-- One candidate update of `find_skyline` (`src/skyline_packer.rs`): keep
the candidate with the strictly lower bottom edge, tie-broken by a strictly
narrower starting segment. -/
def skylineBest (segW i : Nat) (r : Rect) :
    Nat × Nat × Option Nat × Rect → Nat × Nat × Option Nat × Rect
  | (bottom, width, index, rect) =>
    if r.bottom < bottom ∨ (r.bottom = bottom ∧ segW < width) then
      (r.bottom, segW, some i, r)
    else (bottom, width, index, rect)

/-- The index loop of `SkylinePacker::find_skyline`
(`src/skyline_packer.rs`), recursing over segment suffixes: at loop counter
`i` the suffix `segs` is `skylines.drop i`, so `can_put(i, …)` is
`canPutAux` on that suffix and the tested starting segment is its head.
Every segment index is tried with the normal and (when flipping is enabled)
the rotated orientation. -/
def findSkylineGo (maxW maxH : Nat) (flip : Bool) (w h : Nat) :
    Nat → List Skyline → Nat × Nat × Option Nat × Rect → Option (Nat × Rect)
  | _, [], acc =>
    match acc with
    | (_, _, some j, rect) => some (j, rect)
    | (_, _, none, _) => none
  | i, s :: rest, acc =>
    let acc1 :=
      match canPutAux maxW maxH s.x w h 0 w (s :: rest) with
      | some r => skylineBest s.w i r acc
      | none => acc
    let acc2 :=
      if flip then
        match canPutAux maxW maxH s.x h w 0 h (s :: rest) with
        | some r => skylineBest s.w i r acc1
        | none => acc1
      else acc1
    findSkylineGo maxW maxH flip w h (i + 1) rest acc2

/-- `SkylinePacker::find_skyline` (`src/skyline_packer.rs`). -/
def SkylinePacker.findSkyline (p : SkylinePacker) (w h : Nat) : Option (Nat × Rect) :=
  findSkylineGo p.config.maxWidth p.config.maxHeight p.config.allowFlipping w h
    0 p.skylines (u32MAX, u32MAX, none, ⟨0, 0, 0, 0⟩)

/-- The shrink loop of `SkylinePacker::split` (`src/skyline_packer.rs`):
`newRight` is the freshly inserted segment's inclusive right edge; following
segments overlapped by it are removed or shrunk. -/
def shrinkLoop (newRight : Nat) : List Skyline → List Skyline
  | [] => []
  | s :: t =>
    if s.x ≤ newRight then
      let shrink := newRight - s.x + 1
      if s.w ≤ shrink then shrinkLoop newRight t
      else ⟨s.x + shrink, s.y, s.w - shrink⟩ :: t
    else s :: t

/-- `SkylinePacker::split` (`src/skyline_packer.rs`): insert the placed
rectangle's new top segment at `index` and consume the segments it covers.
The source's asserts (segment order, in-bounds) hold on every reachable
call and are not modelled as failures. -/
def SkylinePacker.split (p : SkylinePacker) (index : Nat) (rect : Rect) : SkylinePacker :=
  let newSeg : Skyline := ⟨rect.x, rect.bottom + 1, rect.w⟩
  { p with
    skylines :=
      p.skylines.take index ++ newSeg :: shrinkLoop newSeg.right (p.skylines.drop index) }

/-- `SkylinePacker::merge` (`src/skyline_packer.rs`): coalesce consecutive
segments of equal height. -/
def mergeSegs : List Skyline → List Skyline
  | [] => []
  | [s] => [s]
  | a :: b :: t =>
    if a.y = b.y then mergeSegs (⟨a.x, a.y, a.w + b.w⟩ :: t)
    else a :: mergeSegs (b :: t)
termination_by l => l.length

/-- `SkylinePacker::insert` (`src/skyline_packer.rs`). The `flipped` flag of
the result is `w != rect.w`, as in the source. -/
def SkylinePacker.insert (p : SkylinePacker) (w h : Nat) : Option Rectf × SkylinePacker :=
  match p.findSkyline w h with
  | some (i, rect) =>
    let p1 := p.split i rect
    (some (Rectf.fromRect rect (w != rect.w)),
      { p1 with
        skylines := mergeSegs p1.skylines
        usedArea := p1.usedArea.expandWith rect })
  | none => (none, p)

/-- `SkylinePacker::reset` (`src/skyline_packer.rs`). -/
def SkylinePacker.reset (p : SkylinePacker) (resize : Option Size) : SkylinePacker :=
  let cfg :=
    match resize with
    | some s => { p.config with maxWidth := s.w, maxHeight := s.h }
    | none => p.config
  ⟨cfg, [⟨0, 0, cfg.maxWidth⟩], Size.ZERO⟩

/-- `SkylinePacker::used_area` (`src/skyline_packer.rs`). -/
def SkylinePacker.usedAreaFn (p : SkylinePacker) : Size := p.usedArea

/-! ### Multi-heuristic driver (`src/lib.rs`) -/

/-- Caller request, embedding `RectInput` (`src/lib.rs`). -/
structure RectInput (K : Type) where
  size : Size
  key : K
deriving Repr, DecidableEq

/-- Driver output record, embedding `RectOutput` (`src/lib.rs`). -/
structure RectOutput (K : Type) where
  rect : Rectf
  atlas : Nat
  key : K
deriving Repr, DecidableEq

/-- The `Packer` trait (`src/lib.rs`) as an explicit operation record over a
state type, so the generic driver and optimizer can be stated once. -/
structure PackerOps (σ : Type) where
  insert : σ → Nat → Nat → Option Rectf × σ
  reset : σ → Option Size → σ
  usedArea : σ → Size

/-- `Packer for StripPacker` (`src/strip_packer.rs`). -/
def stripOps : PackerOps StripPacker :=
  ⟨StripPacker.insert, StripPacker.reset, StripPacker.usedAreaFn⟩

/-- `Packer for SplitPacker` (`src/split_packer.rs`). -/
def splitOps : PackerOps SplitPacker :=
  ⟨SplitPacker.insert, SplitPacker.reset, SplitPacker.usedAreaFn⟩

/-- `Packer for SkylinePacker` (`src/skyline_packer.rs`). -/
def skylineOps : PackerOps SkylinePacker :=
  ⟨SkylinePacker.insert, SkylinePacker.reset, SkylinePacker.usedAreaFn⟩

/-- `RECT_SORT_FUNCTIONS` (`src/lib.rs`): the six fixed comparators, in
source order. The last one compares the `f32` pathological measure; it is
modelled via the exact `ℚ` measure (`Size.pathologicalMult`). -/
def RECT_SORT_FUNCTIONS : List (Size → Size → Ordering) :=
  [fun a b => compare b.area a.area,
   fun a b => compare b.perimeter a.perimeter,
   fun a b => compare (max b.w b.h) (max a.w a.h),
   fun a b => compare b.w a.w,
   fun a b => compare b.h a.h,
   fun a b => if b.pathologicalMult < a.pathologicalMult then .lt else .gt]

/-- `u64::MAX`, the initial best-area sentinel of `pack` (`src/lib.rs`). -/
def u64MAX : Nat := 2 ^ 64 - 1

/-- The atlas loops of `pack` (`src/lib.rs`), one trial: attempt the
remaining inputs in order; a successful insert records an output in the
current atlas; on a failed insert the input has already been taken from the
iterator (it is not retried), the just-closed atlas's used area is
accumulated and a fresh atlas is opened. When the inputs run out, the final
(still open) atlas's used area is added. -/
def packAtlas (ops : PackerOps σ) :
    σ → List (RectInput K) → Nat → List (RectOutput K) → Nat →
    List (RectOutput K) × Nat × σ
  | s, [], _, cur, area => (cur, area + (ops.usedArea s).area, s)
  | s, input :: rest, atlas, cur, area =>
    match ops.insert s input.size.w input.size.h with
    | (some r, s1) => packAtlas ops s1 rest atlas (cur ++ [⟨r, atlas, input.key⟩]) area
    | (none, s1) =>
      packAtlas ops (ops.reset s1 none) rest (atlas + 1) cur (area + (ops.usedArea s1).area)

/-- The trial loop of `pack` (`src/lib.rs`): for each comparator, sort the
(shared, mutable) inputs in place, run one multi-atlas trial from a reset
packer, and keep the output of the trial with the strictly smallest total
used area. Returns the winning output together with the final contents of
the caller's `inputs` vector. -/
def packLoop (ops : PackerOps σ) :
    List (Size → Size → Ordering) → List (RectInput K) →
    List (RectOutput K) → Nat → σ → List (RectOutput K) × List (RectInput K)
  | [], inputs, output, _, _ => (output, inputs)
  | cmp :: rest, inputs, output, outputArea, s =>
    let inputs1 := sortByCmp (fun a b => cmp a.size b.size) inputs
    let res := packAtlas ops (ops.reset s none) inputs1 0 [] 0
    if res.2.1 < outputArea then packLoop ops rest inputs1 res.1 res.2.1 res.2.2
    else packLoop ops rest inputs1 output outputArea res.2.2

/-- `pack` (`src/lib.rs`). The Rust function mutates `inputs` in place and
returns the outputs; both are returned here: `(outputs, final inputs)`. -/
def pack (ops : PackerOps σ) (inputs : List (RectInput K)) (packer : σ) :
    List (RectOutput K) × List (RectInput K) :=
  packLoop ops RECT_SORT_FUNCTIONS inputs [] u64MAX packer

/-! ### Bin-size optimizer (`src/optimize.rs`) -/

/-- `bin_dimension` (`src/optimize.rs`). -/
inductive binDimension where
  | Both
  | Width
  | Height
deriving Repr, DecidableEq

/-- `PackingResult` (`src/optimize.rs`). -/
inductive PackingResult where
  | area : Nat → PackingResult
  | size : Size → PackingResult
deriving Repr, DecidableEq

/-- The per-attempt inner loop of `best_packing_for_ordering_impl`
(`src/optimize.rs`): insert the ordering into the packer, accumulating the
inserted area, stopping at the first failure. Returns the final packer
state, the total inserted area and the `all_inserted` flag — which the
source sets to `true` (not `false`) on the failing branch, so it is `true`
on every path. -/
def optimizeAttempt (ops : PackerOps σ) : σ → List Size → σ × Nat × Bool
  | s, [] => (s, 0, true)
  | s, r :: rest =>
    match ops.insert s r.w r.h with
    | (some _, s1) =>
      let res := optimizeAttempt ops s1 rest
      (res.1, r.w * r.h + res.2.1, res.2.2)
    | (none, s1) => (s1, 0, true)

/-- The search loop of `best_packing_for_ordering_impl`
(`src/optimize.rs`), with explicit fuel standing in for the source's
unbounded `loop` (`none` = the modelled execution did not finish within
`fuel` rounds; every theorem below uses a concrete terminating run).
`u32` subtraction on the candidate is modelled by truncated `Nat`
subtraction; no theorem below reaches an underflow. -/
def optimizeLoop (ops : PackerOps σ) (ordering : List Size) (startingBin : Size)
    (discardStep : Int) (dim : binDimension) :
    Nat → σ → Size → Nat → Nat → Option PackingResult
  | 0, _, _, _, _ => none
  | fuel + 1, s, candidate, step, tries =>
    let s1 := ops.reset s (some candidate)
    let att := optimizeAttempt ops s1 ordering
    let all_inserted := att.2.2
    let total_inserted_area := att.2.1
    if all_inserted then
      if (step : Int) ≤ discardStep ∧ tries = 0 then .some (.size candidate)
      else
        let tries1 := if (step : Int) ≤ discardStep then tries - 1 else tries
        let candidate1 :=
          match dim with
          | .Both => Size.mk (candidate.w - step) (candidate.h - step)
          | .Width => Size.mk (candidate.w - step) candidate.h
          | .Height => Size.mk candidate.w (candidate.h - step)
        optimizeLoop ops ordering startingBin discardStep dim fuel
          (ops.reset att.1 (some candidate1)) candidate1 (max 1 (step / 2)) tries1
    else
      let candidate1 :=
        match dim with
        | .Both => Size.mk (candidate.w + step) (candidate.h + step)
        | .Width => Size.mk (candidate.w + step) candidate.h
        | .Height => Size.mk candidate.w (candidate.h + step)
      let aborts : Bool :=
        match dim with
        | .Both => decide (candidate1.area > startingBin.area)
        | .Width => decide (candidate1.w > startingBin.w)
        | .Height => decide (candidate1.h > startingBin.h)
      if aborts then .some (.area total_inserted_area)
      else
        optimizeLoop ops ordering startingBin discardStep dim fuel
          att.1 candidate1 (max 1 (step / 2)) tries

/-- `best_packing_for_ordering_impl` (`src/optimize.rs`): normalize the
discard step, halve the candidate bin along the tried dimensions, and run
the search loop. -/
def bestPackingForOrderingImpl (ops : PackerOps σ) (root : σ) (ordering : List Size)
    (startingBin : Size) (discardStep : Int) (dim : binDimension) (fuel : Nat) :
    Option PackingResult :=
  let tries : Nat := if discardStep ≤ 0 then (-discardStep).toNat else 0
  let dstep : Int := if discardStep ≤ 0 then 1 else discardStep
  let start :=
    match dim with
    | .Both =>
      let c := Size.mk (startingBin.w / 2) (startingBin.h / 2)
      (c, c.w / 2)
    | .Width =>
      let c := Size.mk (startingBin.w / 2) startingBin.h
      (c, c.w / 2)
    | .Height =>
      let c := Size.mk startingBin.w (startingBin.h / 2)
      (c, c.h / 2)
  optimizeLoop ops ordering startingBin dstep dim fuel root start.1 start.2 tries

/-! ### Auxiliary definitions for the stated properties -/

/-- A default `Recta` used only as the `getD` fallback at in-bounds
indices. -/
def Recta.dflt : Recta := ⟨⟨0, 0, 0, 0⟩, 0⟩

/-- Does some orientation of a `w×h` request yield a valid split of the
candidate space? This is exactly the acceptance test of
`SplitPacker::insert`'s candidate loop (`src/split_packer.rs`). -/
def spaceValid (cfg : PackerConfig) (w h : Nat) (sp : Recta) : Bool :=
  (insertAndSplit w h sp.rect).isValid ||
    (cfg.allowFlipping && (insertAndSplit h w sp.rect).isValid)

/-- The insertion policy claimed by the spec for `SplitPacker::insert`,
written from the spec's words for comparison with the source definition:
scan the free spaces in reverse index order (most recently created first)
and accept the first candidate admitting any valid split, with the same
orientation preference as the source. -/
def SplitPacker.insertSpecReverse (p : SplitPacker) (w h : Nat) :
    Option Rectf × SplitPacker :=
  match (List.range p.spaces.length).reverse.find?
      (fun i => spaceValid p.config w h (p.spaces.getD i Recta.dflt)) with
  | none => (none, p)
  | some i =>
    let sp := p.spaces.getD i Recta.dflt
    let pre := (p.spaces.take i).reverse
    let rest := p.spaces.drop (i + 1)
    let normal := insertAndSplit w h sp.rect
    if p.config.allowFlipping then
      let flippedS := insertAndSplit h w sp.rect
      if normal.isValid then
        if flippedS.isValid ∧ flippedS.betterThan normal then
          p.acceptInsert pre rest sp.rect flippedS w h true
        else p.acceptInsert pre rest sp.rect normal w h false
      else p.acceptInsert pre rest sp.rect flippedS w h true
    else p.acceptInsert pre rest sp.rect normal w h false

/-- Index of the first (lowest-index) free space that admits a valid split
for the request, in the list order actually scanned by
`SplitPacker::insert`. -/
def firstValidIdx (cfg : PackerConfig) (w h : Nat) : List Recta → Option Nat
  | [] => none
  | sp :: rest =>
    if spaceValid cfg w h sp then some 0
    else (firstValidIdx cfg w h rest).map (· + 1)

/-- One observable action on a `SkylinePacker`: an insertion attempt or a
reset. -/
inductive SkyAct where
  | ins (w h : Nat)
  | reset (resize : Option Size)
deriving Repr, DecidableEq

/-- Run a sequence of actions from a state (failed inserts keep the state,
exactly as `SkylinePacker::insert` does). -/
def SkylinePacker.runActs (p : SkylinePacker) : List SkyAct → SkylinePacker
  | [] => p
  | .ins w h :: rest => SkylinePacker.runActs (p.insert w h).2 rest
  | .reset r :: rest => SkylinePacker.runActs (p.reset r) rest

/-- An action requests a positive-size rectangle (resets are unrestricted).
Zero-sized requests are excluded throughout: they reach the source's
inclusive `bottom()/right()` arithmetic, documented in the source itself as
ill-defined (underflow/panic). -/
def SkyAct.positive : SkyAct → Prop
  | .ins w h => 1 ≤ w ∧ 1 ≤ h
  | .reset _ => True

instance (a : SkyAct) : Decidable a.positive :=
  match a with
  | .ins w h => inferInstanceAs (Decidable (1 ≤ w ∧ 1 ≤ h))
  | .reset _ => inferInstanceAs (Decidable True)

/-- The skyline tiling chain: starting at horizontal position `a`, each
segment begins exactly where the previous one ended, and the last one ends
exactly at `b`. `chainW 0 W l` says the segments of `l` are sorted
left-to-right and tile `[0, W)` with no gaps and no overlaps. -/
def chainW (a b : Nat) : List Skyline → Prop
  | [] => a = b
  | s :: t => s.x = a ∧ chainW (a + s.w) b t

instance chainW.instDec (a b : Nat) : (l : List Skyline) → Decidable (chainW a b l)
  | [] => inferInstanceAs (Decidable (a = b))
  | s :: t =>
    have := chainW.instDec (a + s.w) b t
    inferInstanceAs (Decidable (_ ∧ _))

/-- The full skyline segment-list invariant of the spec: left-to-right
tiling of `[0, W)` and no two consecutive segments of equal height. -/
def SkyInvSegs (W : Nat) (l : List Skyline) : Prop :=
  chainW 0 W l ∧ List.Chain' (fun s t => s.y ≠ t.y) l

/-- The skyline invariant of a packer state. -/
def SkyInv (p : SkylinePacker) : Prop :=
  SkyInvSegs p.config.maxWidth p.skylines

/-! ## Theorems -/

/-- C1. The containment claim — every placement lies within the configured
atlas bounds, for every strategy, after construction or after any reset —
is violated by the code: `SplitPacker::new` seeds its free space as
`max_width × max_width` (not `max_height`), so a freshly constructed split
packer with `max_width 100, max_height 50` places a `60×100` rectangle
whose bottom edge `y + h = 100` exceeds `max_height = 50`. -/
theorem c1_split_new_breaks_containment :
    ((SplitPacker.new ⟨100, 50, false⟩).insert 60 100).1 =
      some ⟨0, 0, 60, 100, false⟩ ∧
    (SplitPacker.new ⟨100, 50, false⟩).config.maxHeight < 0 + 100 := by
  decide

/-- C6. The idempotent-reset claim — insert a sequence from a fresh packer,
`reset(None)`, re-insert the same sequence, get bit-identical placements —
fails for the split packer: `new` seeds a `max_width × max_width` free
space while `reset` seeds `max_width × max_height`, so with
`max_width 50, max_height 100` the request `10×60` fails before the reset
and succeeds after it. -/
theorem c6_reset_not_reproducible_for_split :
    ((SplitPacker.new ⟨50, 100, false⟩).insert 10 60).1 = none ∧
    ((((SplitPacker.new ⟨50, 100, false⟩).insert 10 60).2.reset none).insert
        10 60).1 = some ⟨0, 0, 10, 60, false⟩ := by
  decide

/-- C7. The optimizer-search claim — a failed pack attempt grows the
candidate bin and the search aborts with the inserted area once the grown
candidate exceeds the maximum bin; only fully successful attempts shrink —
is violated: the source sets `all_inserted = true` (not `false`) on the
failing branch, so failed attempts also take the shrink path. With the
one-item ordering `10×10` (which fits no candidate) and maximum bin `8×8`,
the search shrinks twice and returns success `Size(2×2)` — a bin in which
nothing was ever placed — instead of growing and aborting with `Area 0`:
the very attempt at `2×2` fails. -/
theorem c7_optimizer_failure_shrinks :
    bestPackingForOrderingImpl splitOps (SplitPacker.new ⟨0, 0, false⟩)
        [⟨10, 10⟩] ⟨8, 8⟩ 1 .Both 10 = some (.size ⟨2, 2⟩) ∧
    (((SplitPacker.new ⟨0, 0, false⟩).reset (some ⟨2, 2⟩)).insert 10 10).1 =
      none := by
  decide

/-- C2 (counterexample). The transactional-failure claim is false for the
strip packer: on a fresh `10×10` strip packer, `insert(5, 20)` returns
`None` yet raises `row_height` from `0` to `20` and sets the sticky
`overflowed` flag — the state after the failed call differs from the state
before it. -/
theorem c2_strip_failed_insert_mutates :
    ((StripPacker.new ⟨10, 10, true⟩).insert 5 20).1 = none ∧
    ((StripPacker.new ⟨10, 10, true⟩).insert 5 20).2 ≠
      StripPacker.new ⟨10, 10, true⟩ := by
  decide

/-- C9 (counterexample). The claim that a packer with `max_width = 0` or
`max_height = 0` accepts nothing — for all `w`, `h`, including zero — is
false twice over: a `0×0` strip packer accepts the zero-sized request
`(0,0)`, and a freshly constructed split packer with `max_width 10,
max_height 0` accepts `2×3` (its seed space is `max_width × max_width`). -/
theorem c9_zero_config_accepts_some_requests :
    ((StripPacker.new ⟨0, 0, true⟩).insert 0 0).1 =
      some ⟨0, 0, 0, 0, false⟩ ∧
    ((SplitPacker.new ⟨10, 0, false⟩).insert 2 3).1 =
      some ⟨0, 0, 2, 3, false⟩ := by
  decide

/-- C8 (counterexample). The claim that `SplitPacker::insert` examines the
free spaces in reverse insertion order (most recently created first) is
false: after placing `40×40` in a `100×100` atlas the space list holds the
small `60×40` leftover (index 0, area 2400) and the big `100×60` leftover
(index 1, area 6000); the source scans forward and places `10×10` at
`(40,0)` inside the index-0 space, while the claimed reverse-order
first-fit policy (`SplitPacker.insertSpecReverse`) places it at `(0,40)`. -/
theorem c8_not_reverse_insertion_order :
    ((((SplitPacker.new ⟨100, 100, false⟩).insert 40 40).2.insert 10 10).1 =
      some ⟨40, 0, 10, 10, false⟩) ∧
    ((((SplitPacker.new ⟨100, 100, false⟩).insert 40 40).2.insertSpecReverse
        10 10).1 = some ⟨0, 40, 10, 10, false⟩) ∧
    some (Rectf.mk 40 0 10 10 false) ≠ some (Rectf.mk 0 40 10 10 false) := by
  decide

/-- A failed candidate scan of `SplitPacker::insert` leaves the packer
untouched: the only mutating exit is `accept_insert`, which returns a
placement. -/
theorem SplitPacker.insertAux_none_eq (p : SplitPacker) (w h : Nat) :
    ∀ (rest pre : List Recta),
      (SplitPacker.insertAux p w h pre rest).1 = none →
      (SplitPacker.insertAux p w h pre rest).2 = p := by
  intro rest
  induction rest with
  | nil => intro pre _; rfl
  | cons sp rest ih =>
    intro pre hnone
    unfold SplitPacker.insertAux at hnone ⊢
    by_cases hf : p.config.allowFlipping
    · simp only [hf, if_true] at hnone ⊢
      by_cases hn : (insertAndSplit w h sp.rect).isValid
      · simp only [hn, if_true] at hnone ⊢
        by_cases hb :
            (insertAndSplit h w sp.rect).isValid ∧
              (insertAndSplit h w sp.rect).betterThan (insertAndSplit w h sp.rect)
        · simp only [if_pos hb] at hnone ⊢
          exact absurd hnone (by simp [SplitPacker.acceptInsert])
        · simp only [if_neg hb] at hnone ⊢
          exact absurd hnone (by simp [SplitPacker.acceptInsert])
      · simp only [hn, if_false, Bool.false_eq_true] at hnone ⊢
        by_cases hv : (insertAndSplit h w sp.rect).isValid
        · simp only [hv, if_true] at hnone ⊢
          exact absurd hnone (by simp [SplitPacker.acceptInsert])
        · simp only [hv, if_false, Bool.false_eq_true] at hnone ⊢
          exact ih _ hnone
    · simp only [hf, if_false, Bool.false_eq_true] at hnone ⊢
      by_cases hn : (insertAndSplit w h sp.rect).isValid
      · simp only [hn, if_true] at hnone ⊢
        exact absurd hnone (by simp [SplitPacker.acceptInsert])
      · simp only [hn, if_false, Bool.false_eq_true] at hnone ⊢
        exact ih _ hnone

/-- C2 (amended). A failed `insert` is transactional for the skyline and
split packers: when it returns `None`, the state after the call equals the
state before it. (The strip packer is the exception — see the
counterexample: its failed insert can wrap the row cursor, raise the row
height and set the sticky overflow flag.) -/
theorem c2_failed_insert_transactional :
    (∀ (p : SkylinePacker) (w h : Nat),
        (p.insert w h).1 = none → (p.insert w h).2 = p) ∧
    (∀ (p : SplitPacker) (w h : Nat),
        (p.insert w h).1 = none → (p.insert w h).2 = p) := by
  constructor
  · intro p w h hnone
    unfold SkylinePacker.insert at hnone ⊢
    cases hf : p.findSkyline w h with
    | none => simp [hf]
    | some ir => simp [hf] at hnone
  · intro p w h hnone
    exact SplitPacker.insertAux_none_eq p w h p.spaces [] hnone

/-- C2 (witness): the transactional-failure theorem applied to a `5×5`
skyline packer and a `5×5` split packer rejecting a `9×9` request. -/
theorem c2_failed_insert_transactional_witness :
    ((SkylinePacker.new ⟨5, 5, false⟩).insert 9 9).2 =
      SkylinePacker.new ⟨5, 5, false⟩ ∧
    ((SplitPacker.new ⟨5, 5, false⟩).insert 9 9).2 =
      SplitPacker.new ⟨5, 5, false⟩ :=
  ⟨c2_failed_insert_transactional.1 (SkylinePacker.new ⟨5, 5, false⟩) 9 9
      (by decide),
   c2_failed_insert_transactional.2 (SplitPacker.new ⟨5, 5, false⟩) 9 9
      (by decide)⟩

/-- C4. For a request `w×h` fitting a candidate space `S`: exact fit in
both dimensions emits no remainder; an exact match in exactly one dimension
emits exactly one remainder — the unused strip along the non-matching
dimension; a strict fit in both dimensions emits exactly two remainders,
split along the axis with the strictly larger leftover, one "big" remainder
spanning the full opposite dimension of `S` and one "small" remainder sized
to the placed rectangle's footprint on the other axis. -/
theorem c4_insert_and_split_shapes (w h : Nat) (S : Rect)
    (hw : w ≤ S.w) (hh : h ≤ S.h) :
    (w = S.w ∧ h = S.h → insertAndSplit w h S = .ok []) ∧
    (w < S.w ∧ h = S.h →
      insertAndSplit w h S = .ok [⟨S.x + w, S.y, S.w - w, S.h⟩]) ∧
    (w = S.w ∧ h < S.h →
      insertAndSplit w h S = .ok [⟨S.x, S.y + h, S.w, S.h - h⟩]) ∧
    (w < S.w ∧ h < S.h → (insertAndSplit w h S).count = 2) ∧
    (w < S.w ∧ h < S.h ∧ S.h - h < S.w - w →
      insertAndSplit w h S =
        .ok [⟨S.x + w, S.y, S.w - w, S.h⟩, ⟨S.x, S.y + h, w, S.h - h⟩]) ∧
    (w < S.w ∧ h < S.h ∧ S.w - w < S.h - h →
      insertAndSplit w h S =
        .ok [⟨S.x, S.y + h, S.w, S.h - h⟩, ⟨S.x + w, S.y, S.w - w, h⟩]) := by
  refine ⟨fun hc => ?_, fun hc => ?_, fun hc => ?_, fun hc => ?_,
    fun hc => ?_, fun hc => ?_⟩ <;>
    simp only [insertAndSplit, Splits.count] <;>
    rw [if_neg (by omega)]
  · rw [if_pos (by omega)]
  · rw [if_neg (by omega), if_pos (by omega)]
  · rw [if_neg (by omega), if_neg (by omega), if_pos (by omega)]
  · rw [if_neg (by omega), if_neg (by omega), if_neg (by omega)]
    by_cases hsplit : S.w - w > S.h - h
    · rw [if_pos hsplit]; rfl
    · rw [if_neg hsplit]; rfl
  · rw [if_neg (by omega), if_neg (by omega), if_neg (by omega),
      if_pos (by omega)]
  · rw [if_neg (by omega), if_neg (by omega), if_neg (by omega),
      if_neg (by omega)]

/-- C4 (witness): request `2×3` in the space at `(5,7)` of size `10×9`;
the width leftover `8` strictly exceeds the height leftover `6`, so the
split is vertical: the big remainder `8×9` spans the full height, the small
remainder `2×6` matches the placed footprint's width. -/
theorem c4_insert_and_split_shapes_witness :
    insertAndSplit 2 3 ⟨5, 7, 10, 9⟩ =
      .ok [⟨7, 7, 8, 9⟩, ⟨5, 10, 2, 6⟩] :=
  (c4_insert_and_split_shapes 2 3 ⟨5, 7, 10, 9⟩ (by decide)
      (by decide)).2.2.2.2.1 ⟨by decide, by decide, by decide⟩

/-- A fresh strip packer whose atlas has a zero dimension rejects every
positive-size request. -/
theorem strip_zero_rejects (cfg : PackerConfig) (w h : Nat)
    (hzero : cfg.maxWidth = 0 ∨ cfg.maxHeight = 0) (hw : 1 ≤ w) (hh : 1 ≤ h) :
    ((StripPacker.new cfg).insert w h).1 = none := by
  simp only [StripPacker.insert, StripPacker.new]
  split_ifs <;>
    first
      | rfl
      | (exfalso; simp_all; omega)

/-- A fresh skyline packer whose atlas has a zero dimension rejects every
positive-size request: its single segment fails the bounds check in both
orientations. -/
theorem skyline_zero_rejects (cfg : PackerConfig) (w h : Nat)
    (hzero : cfg.maxWidth = 0 ∨ cfg.maxHeight = 0) (hw : 1 ≤ w) (hh : 1 ≤ h) :
    ((SkylinePacker.new cfg).insert w h).1 = none := by
  have hcan : ∀ a b : Nat, 1 ≤ a → 1 ≤ b →
      canPutAux cfg.maxWidth cfg.maxHeight 0 a b 0 a [⟨0, 0, cfg.maxWidth⟩] =
        none := by
    intro a b ha hb
    rw [canPutAux, if_pos (by rcases hzero with h0 | h0 <;> simp [h0] <;> omega)]
  have hfind : (SkylinePacker.new cfg).findSkyline w h = none := by
    rw [SkylinePacker.findSkyline]
    simp only [SkylinePacker.new]
    rw [findSkylineGo]
    simp only [hcan w h hw hh, hcan h w hh hw, ite_self]
    rw [findSkylineGo]
  rw [SkylinePacker.insert, hfind]

/-- After a reset, a split packer whose atlas has a zero dimension rejects
every positive-size request: the seed space is too small in both
orientations. -/
theorem split_reset_zero_rejects (cfg : PackerConfig) (w h : Nat)
    (hzero : cfg.maxWidth = 0 ∨ cfg.maxHeight = 0) (hw : 1 ≤ w) (hh : 1 ≤ h)
    (p : SplitPacker) (hp : p.config = cfg) :
    ((p.reset none).insert w h).1 = none := by
  have hseed : ∀ a b : Nat, 1 ≤ a → 1 ≤ b →
      insertAndSplit a b ⟨0, 0, cfg.maxWidth, cfg.maxHeight⟩ = .failed := by
    intro a b ha hb
    rw [insertAndSplit, if_pos (by rcases hzero with h0 | h0 <;> simp [h0] <;> omega)]
  rw [SplitPacker.reset]
  simp only [hp]
  rw [SplitPacker.insert]
  simp only [SplitPacker.insertAux, Recta.ofRect, hseed w h hw hh,
    hseed h w hh hw, Splits.isValid]
  simp [SplitPacker.insertAux]

/-- C9 (amended). A packer whose atlas is configured with `max_width = 0`
or `max_height = 0` rejects every request with `w ≥ 1` and `h ≥ 1`: the
strip and skyline packers do so from construction, and all three strategies
do so after any `reset(None)` from a state carrying that configuration.
(Zero-sized requests can be accepted — see the counterexample — and a
freshly constructed `SplitPacker` seeds its space from `max_width` alone,
so only the post-reset state is constrained for it.) -/
theorem c9_zero_config_rejects_positive (cfg : PackerConfig) (w h : Nat)
    (hzero : cfg.maxWidth = 0 ∨ cfg.maxHeight = 0) (hw : 1 ≤ w) (hh : 1 ≤ h) :
    ((StripPacker.new cfg).insert w h).1 = none ∧
    ((SkylinePacker.new cfg).insert w h).1 = none ∧
    (∀ p : StripPacker, p.config = cfg → ((p.reset none).insert w h).1 = none) ∧
    (∀ q : SkylinePacker, q.config = cfg → ((q.reset none).insert w h).1 = none) ∧
    (∀ r : SplitPacker, r.config = cfg → ((r.reset none).insert w h).1 = none) := by
  refine ⟨strip_zero_rejects cfg w h hzero hw hh,
    skyline_zero_rejects cfg w h hzero hw hh, fun p hp => ?_, fun q hq => ?_,
    fun r hr => split_reset_zero_rejects cfg w h hzero hw hh r hr⟩
  · have : p.reset none = StripPacker.new cfg := by
      simp [StripPacker.reset, StripPacker.new, hp]
    rw [this]
    exact strip_zero_rejects cfg w h hzero hw hh
  · have : q.reset none = SkylinePacker.new cfg := by
      simp [SkylinePacker.reset, SkylinePacker.new, hq]
    rw [this]
    exact skyline_zero_rejects cfg w h hzero hw hh

/-- C9 (witness): with `max_width = 0, max_height = 5`, all five parts of
the amended claim reject a `1×1` request, instantiated at fresh packers. -/
theorem c9_zero_config_rejects_positive_witness :
    ((StripPacker.new ⟨0, 5, true⟩).insert 1 1).1 = none ∧
    ((SkylinePacker.new ⟨0, 5, true⟩).insert 1 1).1 = none ∧
    (((StripPacker.new ⟨0, 5, true⟩).reset none).insert 1 1).1 = none ∧
    (((SkylinePacker.new ⟨0, 5, true⟩).reset none).insert 1 1).1 = none ∧
    (((SplitPacker.new ⟨0, 5, true⟩).reset none).insert 1 1).1 = none := by
  obtain ⟨h1, h2, h3, h4, h5⟩ :=
    c9_zero_config_rejects_positive ⟨0, 5, true⟩ 1 1 (by decide) (by decide)
      (by decide)
  exact ⟨h1, h2, h3 _ (by decide), h4 _ (by decide), h5 _ (by decide)⟩

theorem insertSorted_head_cases (le : α → α → Bool) (x : α) (l : List α) :
    (insertSorted le x l).head? = some x ∨
      (insertSorted le x l).head? = l.head? := by
  cases l with
  | nil => left; rfl
  | cons y ys =>
    by_cases hle : le x y
    · left; simp [insertSorted, hle]
    · right; simp [insertSorted, hle]

theorem chain'_insertSorted (R : α → α → Prop) (le : α → α → Bool)
    (h1 : ∀ a b, le a b = true → R a b) (h2 : ∀ a b, le a b = false → R b a)
    (x : α) : ∀ l, List.Chain' R l → List.Chain' R (insertSorted le x l) := by
  intro l
  induction l with
  | nil => intro _; simp [insertSorted]
  | cons y ys ih =>
    intro hc
    rw [List.chain'_cons'] at hc
    by_cases hle : le x y
    · simp only [insertSorted, hle, if_true]
      rw [List.chain'_cons']
      refine ⟨?_, List.chain'_cons'.2 hc⟩
      intro b hb
      simp at hb
      subst hb
      exact h1 _ _ hle
    · simp only [insertSorted, hle, if_false, Bool.false_eq_true]
      rw [List.chain'_cons']
      refine ⟨?_, ih hc.2⟩
      intro b hb
      rcases insertSorted_head_cases le x ys with hh | hh
      · rw [hh] at hb
        simp at hb
        subst hb
        exact h2 _ _ (by simpa using hle)
      · rw [hh] at hb
        exact hc.1 b hb

theorem chain'_sortByLe (R : α → α → Prop) (le : α → α → Bool)
    (h1 : ∀ a b, le a b = true → R a b) (h2 : ∀ a b, le a b = false → R b a) :
    ∀ l : List α, List.Chain' R (sortByLe le l) := by
  intro l
  induction l with
  | nil => simp [sortByLe]
  | cons x xs ih => exact chain'_insertSorted R le h1 h2 x _ ih

/-- The spaces list produced by `accept_insert` is sorted by ascending
cached area. -/
theorem acceptInsert_spaces_sorted (p : SplitPacker) (pre rest : List Recta)
    (candidate : Rect) (splits : Splits) (w h : Nat) (flipped : Bool) :
    List.Chain' (fun a b : Recta => a.area ≤ b.area)
      ((p.acceptInsert pre rest candidate splits w h flipped).2).spaces := by
  apply chain'_sortByLe
  · intro a b hab
    cases hcmp : compare a.area b.area with
    | lt => exact Nat.le_of_lt (Nat.compare_eq_lt.1 hcmp)
    | eq => exact Nat.le_of_eq (Nat.compare_eq_eq.1 hcmp)
    | gt => simp only [hcmp] at hab; exact absurd hab (by decide)
  · intro a b hab
    cases hcmp : compare a.area b.area with
    | lt => simp only [hcmp] at hab; exact absurd hab (by decide)
    | eq => simp only [hcmp] at hab; exact absurd hab (by decide)
    | gt => exact Nat.le_of_lt (Nat.compare_eq_gt.1 hcmp)


theorem insertAux_firstValid (p : SplitPacker) (w h : Nat) :
    ∀ (rest pre : List Recta),
      (firstValidIdx p.config w h rest = none →
        SplitPacker.insertAux p w h pre rest = (none, p)) ∧
      (∀ i, firstValidIdx p.config w h rest = some i →
        ∃ r s1, SplitPacker.insertAux p w h pre rest = (some r, s1) ∧
          r.x = (rest.getD i Recta.dflt).rect.x ∧
          r.y = (rest.getD i Recta.dflt).rect.y ∧
          List.Chain' (fun a b : Recta => a.area ≤ b.area) s1.spaces) := by
  intro rest
  induction rest with
  | nil =>
    intro pre
    exact ⟨fun _ => rfl, fun i hi => by simp [firstValidIdx] at hi⟩
  | cons sp rest ih =>
    intro pre
    by_cases hv : spaceValid p.config w h sp
    · constructor
      · intro hnone
        rw [firstValidIdx, if_pos hv] at hnone
        exact absurd hnone (by simp)
      · intro i hi
        rw [firstValidIdx, if_pos hv] at hi
        have hi0 : i = 0 := by simpa using hi.symm
        subst hi0
        unfold SplitPacker.insertAux
        by_cases hf : p.config.allowFlipping
        · simp only [hf, if_true]
          by_cases hn : (insertAndSplit w h sp.rect).isValid
          · simp only [hn, if_true]
            by_cases hb : (insertAndSplit h w sp.rect).isValid ∧
                (insertAndSplit h w sp.rect).betterThan (insertAndSplit w h sp.rect)
            · rw [if_pos hb]
              exact ⟨_, _, rfl, rfl, rfl, acceptInsert_spaces_sorted ..⟩
            · rw [if_neg hb]
              exact ⟨_, _, rfl, rfl, rfl, acceptInsert_spaces_sorted ..⟩
          · have hfv : (insertAndSplit h w sp.rect).isValid := by
              simp [spaceValid, hn, hf] at hv
              exact hv
            simp only [hn, Bool.false_eq_true, if_false]
            rw [if_pos hfv]
            exact ⟨_, _, rfl, rfl, rfl, acceptInsert_spaces_sorted ..⟩
        · have hn : (insertAndSplit w h sp.rect).isValid := by
            simp [spaceValid, hf] at hv
            exact hv
          simp only [hf, Bool.false_eq_true, if_false]
          rw [if_pos hn]
          exact ⟨_, _, rfl, rfl, rfl, acceptInsert_spaces_sorted ..⟩
    · have hrec : SplitPacker.insertAux p w h pre (sp :: rest) =
          SplitPacker.insertAux p w h (sp :: pre) rest := by
        conv_lhs => rw [SplitPacker.insertAux]
        by_cases hf : p.config.allowFlipping
        · have hboth : (insertAndSplit w h sp.rect).isValid = false ∧
              (insertAndSplit h w sp.rect).isValid = false := by
            simp [spaceValid, hf] at hv
            exact ⟨hv.1, hv.2⟩
          simp [hf, hboth.1, hboth.2]
        · have hn : (insertAndSplit w h sp.rect).isValid = false := by
            simp [spaceValid, hf] at hv
            exact hv
          simp [hf, hn]
      constructor
      · intro hnone
        rw [firstValidIdx, if_neg hv] at hnone
        have hrest : firstValidIdx p.config w h rest = none := by
          cases hfv2 : firstValidIdx p.config w h rest with
          | none => rfl
          | some j => rw [hfv2] at hnone; simp at hnone
        rw [hrec]
        exact (ih (sp :: pre)).1 hrest
      · intro i hi
        rw [firstValidIdx, if_neg hv] at hi
        cases hfv2 : firstValidIdx p.config w h rest with
        | none => rw [hfv2] at hi; simp at hi
        | some j =>
          rw [hfv2] at hi
          have hij : i = j + 1 := by simpa using hi.symm
          subst hij
          rw [hrec]
          obtain ⟨r, s1, heq, hx, hy, hs⟩ := (ih (sp :: pre)).2 j hfv2
          exact ⟨r, s1, heq, by simpa using hx, by simpa using hy, hs⟩


/-- C8 (amended). `SplitPacker::insert` scans the free-space list in
forward index order — the list is kept sorted by ascending cached area
after every successful insert, so the smallest spaces are examined first —
and accepts immediately the first space admitting any valid split (at most
two remainders): a first-fit policy, not a best-fit over all spaces. When
no space admits a split, the packer is unchanged and `None` is returned. -/
theorem c8_forward_first_fit_sorted (p : SplitPacker) (w h : Nat) :
    (firstValidIdx p.config w h p.spaces = none → p.insert w h = (none, p)) ∧
    (∀ i, firstValidIdx p.config w h p.spaces = some i →
      ∃ r s1, p.insert w h = (some r, s1) ∧
        r.x = (p.spaces.getD i Recta.dflt).rect.x ∧
        r.y = (p.spaces.getD i Recta.dflt).rect.y ∧
        List.Chain' (fun a b : Recta => a.area ≤ b.area) s1.spaces) :=
  insertAux_firstValid p w h p.spaces []

/-- C8 (amended, witness): on a fresh `100×100` split packer the single
seed space is the first valid candidate (index 0), and a `10×10` insert is
accepted there, leaving an area-sorted space list. -/
theorem c8_forward_first_fit_sorted_witness :
    ∃ r s1, (SplitPacker.new ⟨100, 100, false⟩).insert 10 10 = (some r, s1) ∧
      r.x = (((SplitPacker.new ⟨100, 100, false⟩).spaces).getD 0
        Recta.dflt).rect.x ∧
      r.y = (((SplitPacker.new ⟨100, 100, false⟩).spaces).getD 0
        Recta.dflt).rect.y ∧
      List.Chain' (fun a b : Recta => a.area ≤ b.area) s1.spaces :=
  (c8_forward_first_fit_sorted (SplitPacker.new ⟨100, 100, false⟩) 10 10).2 0
    (by decide)

/-- The final contents of the caller's `inputs` vector after the trial loop
is the composition of the per-trial in-place sorts, independent of the
packer's behaviour and of which trial won. -/
theorem packLoop_inputs {σ K : Type} (ops : PackerOps σ) :
    ∀ (cmps : List (Size → Size → Ordering)) (inputs : List (RectInput K))
      (out : List (RectOutput K)) (area : Nat) (s : σ),
      (packLoop ops cmps inputs out area s).2 =
        cmps.foldl (fun l c => sortByCmp (fun a b => c a.size b.size) l) inputs := by
  intro cmps
  induction cmps with
  | nil => intro inputs out area s; rfl
  | cons c rest ih =>
    intro inputs out area s
    rw [packLoop]
    split_ifs <;> rw [ih] <;> rfl

/-- C10. `pack` sorts the caller's `inputs` vector in place once per
heuristic trial; when it returns, `inputs` is left in the order produced by
the last comparator of `RECT_SORT_FUNCTIONS` (descending pathological
aspect measure) applied after the five earlier sorts, regardless of which
heuristic won — and, at a concrete two-element input on the strip strategy,
the original order is not restored. -/
theorem c10_pack_permutes_inputs :
    (∀ (σ K : Type) (ops : PackerOps σ) (inputs : List (RectInput K)) (s0 : σ),
      (pack ops inputs s0).2 =
        sortByCmp (fun a b : RectInput K =>
            if b.size.pathologicalMult < a.size.pathologicalMult then .lt
            else .gt)
          (sortByCmp (fun a b : RectInput K => compare b.size.h a.size.h)
            (sortByCmp (fun a b : RectInput K => compare b.size.w a.size.w)
              (sortByCmp (fun a b : RectInput K =>
                  compare (max b.size.w b.size.h) (max a.size.w a.size.h))
                (sortByCmp (fun a b : RectInput K =>
                    compare b.size.perimeter a.size.perimeter)
                  (sortByCmp (fun a b : RectInput K =>
                      compare b.size.area a.size.area) inputs)))))) ∧
    (pack stripOps [⟨⟨1, 2⟩, (0 : Nat)⟩, ⟨⟨30, 30⟩, 1⟩]
        (StripPacker.new ⟨100, 100, true⟩)).2 ≠
      [⟨⟨1, 2⟩, (0 : Nat)⟩, ⟨⟨30, 30⟩, 1⟩] := by
  have huniv : ∀ (σ K : Type) (ops : PackerOps σ) (inputs : List (RectInput K)) (s0 : σ),
      (pack ops inputs s0).2 =
        sortByCmp (fun a b : RectInput K =>
            if b.size.pathologicalMult < a.size.pathologicalMult then .lt
            else .gt)
          (sortByCmp (fun a b : RectInput K => compare b.size.h a.size.h)
            (sortByCmp (fun a b : RectInput K => compare b.size.w a.size.w)
              (sortByCmp (fun a b : RectInput K =>
                  compare (max b.size.w b.size.h) (max a.size.w a.size.h))
                (sortByCmp (fun a b : RectInput K =>
                    compare b.size.perimeter a.size.perimeter)
                  (sortByCmp (fun a b : RectInput K =>
                      compare b.size.area a.size.area) inputs))))) := by
    intro σ K ops inputs s0
    rw [pack, packLoop_inputs]
    rfl
  refine ⟨huniv, ?_⟩
  rw [huniv]
  have h5 : sortByCmp (fun a b : RectInput Nat => compare b.size.h a.size.h)
      (sortByCmp (fun a b : RectInput Nat => compare b.size.w a.size.w)
        (sortByCmp (fun a b : RectInput Nat =>
            compare (max b.size.w b.size.h) (max a.size.w a.size.h))
          (sortByCmp (fun a b : RectInput Nat =>
              compare b.size.perimeter a.size.perimeter)
            (sortByCmp (fun a b : RectInput Nat =>
                compare b.size.area a.size.area)
              [⟨⟨1, 2⟩, (0 : Nat)⟩, ⟨⟨30, 30⟩, 1⟩])))) =
      [⟨⟨30, 30⟩, 1⟩, ⟨⟨1, 2⟩, (0 : Nat)⟩] := by decide
  rw [h5]
  have hlt : Size.pathologicalMult ⟨1, 2⟩ < Size.pathologicalMult ⟨30, 30⟩ := by
    norm_num [Size.pathologicalMult, Size.maxSide, Size.minSide, Size.area]
  simp [sortByCmp, sortByLe, insertSorted, hlt]
  decide

/-- C3. The driver does not re-attempt the item whose insert failed: `pack`
takes each input from the iterator before calling `insert`, so on failure
the item is consumed and the new atlas starts with the next item. On a
`10×10` strip atlas with two `10×10` inputs — both of which fit an empty
atlas — every trial drops the second item and the driver returns a single
output record instead of one per item. -/
theorem c3_pack_drops_failed_item :
    (pack stripOps [⟨⟨10, 10⟩, (0 : Nat)⟩, ⟨⟨10, 10⟩, 1⟩]
        (StripPacker.new ⟨10, 10, true⟩)).1 =
      [⟨⟨0, 0, 10, 10, false⟩, 0, 0⟩] := by
  simp [pack, packLoop, RECT_SORT_FUNCTIONS, sortByCmp, sortByLe, insertSorted,
    packAtlas, stripOps, StripPacker.insert, StripPacker.reset, StripPacker.new,
    StripPacker.usedAreaFn, Size.expandWith, Size.area, Size.ZERO, u64MAX,
    Size.perimeter, lt_self_iff_false]

/-- Facts returned by a successful `can_put` scan: the rectangle sits at the
tested segment's left edge with the requested width and height, and both
its right and bottom edges are within the atlas bounds. -/
theorem canPutAux_some (maxW maxH x w h : Nat) :
    ∀ (segs : List Skyline) (y wl : Nat) (r : Rect),
      canPutAux maxW maxH x w h y wl segs = some r →
      r.x = x ∧ r.w = w ∧ r.h = h ∧ x + w ≤ maxW ∧ r.y + h ≤ maxH := by
  intro segs
  induction segs with
  | nil => intro y wl r hr; exact absurd hr (by simp [canPutAux])
  | cons s rest ih =>
    intro y wl r hr
    rw [canPutAux] at hr
    by_cases hb : x + w > maxW ∨ max y s.y + h > maxH
    · rw [if_pos hb] at hr; exact absurd hr (by simp)
    · rw [if_neg hb] at hr
      push_neg at hb
      by_cases hwl : wl ≤ s.w
      · rw [if_pos hwl] at hr
        have hr2 := hr.symm
        injection hr2 with hr3
        subst hr3
        exact ⟨rfl, rfl, rfl, by omega, by simp only []; omega⟩
      · rw [if_neg hwl] at hr
        exact ih _ _ _ hr


/-- Any segment index and rectangle selected by the `find_skyline` loop
came from a successful `can_put` at that index, in one of the two
orientations. The accumulator invariant is threaded through the loop. -/
theorem findSkylineGo_some (maxW maxH : Nat) (flip : Bool) (w h : Nat)
    (L : List Skyline) :
    ∀ (segs : List Skyline) (i : Nat), segs = L.drop i →
      ∀ (acc : Nat × Nat × Option Nat × Rect),
        (∀ j0, acc.2.2.1 = some j0 →
          ∃ s2 rest2, L.drop j0 = s2 :: rest2 ∧
            ∃ a b, ((a = w ∧ b = h) ∨ (a = h ∧ b = w)) ∧
              canPutAux maxW maxH s2.x a b 0 a (s2 :: rest2) = some acc.2.2.2) →
        ∀ j r, findSkylineGo maxW maxH flip w h i segs acc = some (j, r) →
          ∃ s2 rest2, L.drop j = s2 :: rest2 ∧
            ∃ a b, ((a = w ∧ b = h) ∨ (a = h ∧ b = w)) ∧
              canPutAux maxW maxH s2.x a b 0 a (s2 :: rest2) = some r := by
  intro segs
  induction segs with
  | nil =>
    intro i _ acc hacc j r hres
    obtain ⟨bo, wi, idx, rc⟩ := acc
    cases idx with
    | none => exact absurd hres (by simp [findSkylineGo])
    | some j0 =>
      rw [findSkylineGo] at hres
      have hj : j0 = j ∧ rc = r := by
        have := hres
        simp at this
        exact ⟨this.1, this.2⟩
      obtain ⟨hj0, hrc⟩ := hj
      subst hj0
      subst hrc
      exact hacc j0 rfl
  | cons s rest ih =>
    intro i hseg acc hacc j r hres
    have hdrop1 : L.drop (i + 1) = rest := by
      have h1 : L.drop (i + 1) = (L.drop i).drop 1 := by
        rw [List.drop_drop]
      rw [h1, ← hseg]
      rfl
    rw [findSkylineGo] at hres
    -- the two accumulator updates preserve the invariant
    have hstep : ∀ (acc1 : Nat × Nat × Option Nat × Rect),
        (∀ j0, acc1.2.2.1 = some j0 →
          ∃ s2 rest2, L.drop j0 = s2 :: rest2 ∧
            ∃ a b, ((a = w ∧ b = h) ∨ (a = h ∧ b = w)) ∧
              canPutAux maxW maxH s2.x a b 0 a (s2 :: rest2) = some acc1.2.2.2) →
        ∀ (a b : Nat), ((a = w ∧ b = h) ∨ (a = h ∧ b = w)) →
        ∀ (rcand : Rect),
          canPutAux maxW maxH s.x a b 0 a (s :: rest) = some rcand →
        ∀ j0, (skylineBest s.w i rcand acc1).2.2.1 = some j0 →
          ∃ s2 rest2, L.drop j0 = s2 :: rest2 ∧
            ∃ a2 b2, ((a2 = w ∧ b2 = h) ∨ (a2 = h ∧ b2 = w)) ∧
              canPutAux maxW maxH s2.x a2 b2 0 a2 (s2 :: rest2) =
                some (skylineBest s.w i rcand acc1).2.2.2 := by
      intro acc1 hacc1 a b hab rcand hcand j0 hj0
      obtain ⟨bo, wi, idx, rc⟩ := acc1
      rw [skylineBest] at hj0 ⊢
      by_cases hcond : rcand.bottom < bo ∨ (rcand.bottom = bo ∧ s.w < wi)
      · rw [if_pos hcond] at hj0 ⊢
        simp at hj0
        subst hj0
        exact ⟨s, rest, hseg.symm, a, b, hab, hcand⟩
      · rw [if_neg hcond] at hj0 ⊢
        exact hacc1 j0 hj0
    cases hflip : flip with
    | false =>
      rw [hflip] at hres
      simp only [Bool.false_eq_true, if_false] at hres
      rw [← hflip] at hres
      cases hc1 : canPutAux maxW maxH s.x w h 0 w (s :: rest) with
      | some r1 =>
        rw [hc1] at hres
        exact ih (i + 1) hdrop1.symm _
          (fun j1 hj1 => hstep _ hacc w h (Or.inl ⟨rfl, rfl⟩) r1 hc1 j1 hj1)
          j r hres
      | none =>
        rw [hc1] at hres
        exact ih (i + 1) hdrop1.symm _ hacc j r hres
    | true =>
      rw [hflip] at hres
      simp only [eq_self_iff_true, if_true] at hres
      rw [← hflip] at hres
      cases hc1 : canPutAux maxW maxH s.x w h 0 w (s :: rest) with
      | some r1 =>
        rw [hc1] at hres
        cases hc2 : canPutAux maxW maxH s.x h w 0 h (s :: rest) with
        | some r2 =>
          rw [hc2] at hres
          refine ih (i + 1) hdrop1.symm _ ?_ j r hres
          intro j1 hj1
          exact hstep _
            (fun j2 hj2 => hstep _ hacc w h (Or.inl ⟨rfl, rfl⟩) r1 hc1 j2 hj2)
            h w (Or.inr ⟨rfl, rfl⟩) r2 hc2 j1 hj1
        | none =>
          rw [hc2] at hres
          exact ih (i + 1) hdrop1.symm _
            (fun j1 hj1 => hstep _ hacc w h (Or.inl ⟨rfl, rfl⟩) r1 hc1 j1 hj1)
            j r hres
      | none =>
        rw [hc1] at hres
        cases hc2 : canPutAux maxW maxH s.x h w 0 h (s :: rest) with
        | some r2 =>
          rw [hc2] at hres
          exact ih (i + 1) hdrop1.symm _
            (fun j1 hj1 => hstep _ hacc h w (Or.inr ⟨rfl, rfl⟩) r2 hc2 j1 hj1)
            j r hres
        | none =>
          rw [hc2] at hres
          exact ih (i + 1) hdrop1.symm _ hacc j r hres


/-- The shrink loop of `split` re-establishes the tiling chain: starting
from position `c ≤ x + w2` inside the area covered by the new segment
`[x, x + w2)`, the surviving suffix tiles exactly from `x + w2` to `W`. -/
theorem shrinkLoop_chainW (x w2 W : Nat) (hw : 1 ≤ w2) (hxw : x + w2 ≤ W) :
    ∀ (rest : List Skyline) (c : Nat), chainW c W rest → c ≤ x + w2 →
      chainW (x + w2) W (shrinkLoop (x + w2 - 1) rest) := by
  intro rest
  induction rest with
  | nil =>
    intro c hc hle
    simp only [chainW] at hc
    simp only [shrinkLoop, chainW]
    omega
  | cons s t ih =>
    intro c hc hle
    obtain ⟨hsx, hct⟩ := hc
    rw [shrinkLoop]
    by_cases hover : s.x ≤ x + w2 - 1
    · rw [if_pos hover]
      by_cases hsw : s.w ≤ x + w2 - 1 - s.x + 1
      · rw [if_pos hsw]
        exact ih (c + s.w) hct (by omega)
      · rw [if_neg hsw]
        have h1 : s.x + (x + w2 - 1 - s.x + 1) = x + w2 := by omega
        have h2 : x + w2 + (s.w - (x + w2 - 1 - s.x + 1)) = c + s.w := by omega
        refine ⟨h1, ?_⟩
        show chainW (x + w2 + (s.w - (x + w2 - 1 - s.x + 1))) W t
        rw [h2]
        exact hct
    · rw [if_neg hover]
      have hc2 : x + w2 = c := by omega
      refine ⟨by omega, ?_⟩
      show chainW (x + w2 + s.w) W t
      rw [hc2]
      exact hct

/-- Inserting the new top segment at the placement index and running the
shrink loop preserves the tiling chain of the whole list. -/
theorem split_chainW (y0 : Nat) :
    ∀ (index : Nat) (L : List Skyline) (a W x w2 : Nat), chainW a W L →
      (∃ s0 rest0, L.drop index = s0 :: rest0 ∧ s0.x = x) →
      1 ≤ w2 → x + w2 ≤ W →
      chainW a W
        (L.take index ++ Skyline.mk x y0 w2 ::
          shrinkLoop (x + w2 - 1) (L.drop index)) := by
  intro index
  induction index with
  | zero =>
    intro L a W x w2 hc hdrop hw hxw
    obtain ⟨s0, rest0, hd, hx⟩ := hdrop
    simp only [List.drop_zero] at hd
    subst hd
    obtain ⟨hsx, hct⟩ := hc
    have hax : a = x := by omega
    subst hax
    simp only [List.take_zero, List.drop_zero, List.nil_append]
    refine ⟨rfl, ?_⟩
    show chainW (a + w2) W (shrinkLoop (a + w2 - 1) (s0 :: rest0))
    exact shrinkLoop_chainW a w2 W hw hxw (s0 :: rest0) a ⟨hsx, hct⟩
      (by omega)
  | succ n ih =>
    intro L a W x w2 hc hdrop hw hxw
    cases L with
    | nil =>
      obtain ⟨s0, rest0, hd, _⟩ := hdrop
      simp at hd
    | cons s t =>
      obtain ⟨hsx, hct⟩ := hc
      simp only [List.drop_succ_cons] at hdrop ⊢
      simp only [List.take_succ_cons, List.cons_append]
      exact ⟨hsx, ih t (a + s.w) W x w2 hct hdrop hw hxw⟩


/-- Merging equal-height neighbours preserves the tiling chain: the merged
segment keeps the left segment's start and the summed width. -/
theorem mergeSegs_chainW :
    ∀ (l : List Skyline) (a b : Nat), chainW a b l → chainW a b (mergeSegs l) := by
  intro l
  induction l using mergeSegs.induct with
  | case1 =>
    intro a b hc
    simpa [mergeSegs] using hc
  | case2 s =>
    intro a b hc
    simpa [mergeSegs] using hc
  | case3 s1 s2 t heq ih =>
    intro a b hc
    obtain ⟨h1, h2, h3⟩ := hc
    rw [mergeSegs, if_pos heq]
    refine ih a b ⟨h1, ?_⟩
    show chainW (a + (s1.w + s2.w)) b t
    have hsum : a + (s1.w + s2.w) = a + s1.w + s2.w := by omega
    rw [hsum]
    exact h3
  | case4 s1 s2 t hne ih =>
    intro a b hc
    rw [mergeSegs, if_neg hne]
    exact ⟨hc.1, ih (a + s1.w) b hc.2⟩

/-- `merge` keeps the head segment's position and height (only its width
can grow). -/
theorem mergeSegs_head :
    ∀ (s : Skyline) (t : List Skyline), ∃ w2 rest,
      mergeSegs (s :: t) = Skyline.mk s.x s.y w2 :: rest := by
  intro s t
  induction t generalizing s with
  | nil => exact ⟨s.w, [], by simp [mergeSegs]⟩
  | cons s2 t2 ih =>
    by_cases hy : s.y = s2.y
    · obtain ⟨w2, rest, hw⟩ := ih ⟨s.x, s.y, s.w + s2.w⟩
      refine ⟨w2, rest, ?_⟩
      rw [mergeSegs, if_pos hy]
      exact hw
    · refine ⟨s.w, mergeSegs (s2 :: t2), ?_⟩
      rw [mergeSegs, if_neg hy]

/-- After `merge`, no two consecutive segments share a height. -/
theorem mergeSegs_noDupY :
    ∀ (l : List Skyline),
      List.Chain' (fun u v : Skyline => u.y ≠ v.y) (mergeSegs l) := by
  intro l
  induction l using mergeSegs.induct with
  | case1 => simp [mergeSegs]
  | case2 s => simp [mergeSegs]
  | case3 s1 s2 t heq ih =>
    rw [mergeSegs, if_pos heq]
    exact ih
  | case4 s1 s2 t hne ih =>
    rw [mergeSegs, if_neg hne]
    obtain ⟨w2, rest, hw⟩ := mergeSegs_head s2 t
    rw [hw]
    rw [hw] at ih
    exact List.chain'_cons.2 ⟨by simpa using hne, ih⟩


/-- A successful `SkylinePacker::insert` of a positive-size rectangle
preserves the skyline invariant (a failed one returns the state
unchanged). -/
theorem skyline_insert_preserves (p : SkylinePacker) (w h : Nat)
    (hw : 1 ≤ w) (hh : 1 ≤ h) (hinv : SkyInv p) : SkyInv (p.insert w h).2 := by
  rw [SkylinePacker.insert]
  cases hf : p.findSkyline w h with
  | none => exact hinv
  | some jr =>
    obtain ⟨j, rect⟩ := jr
    have hfacts := findSkylineGo_some p.config.maxWidth p.config.maxHeight
      p.config.allowFlipping w h p.skylines p.skylines 0 (by simp)
      (u32MAX, u32MAX, none, ⟨0, 0, 0, 0⟩)
      (by intro j0 hj0; exact absurd hj0 (by simp)) j rect hf
    obtain ⟨s2, rest2, hdrop, a, b, hab, hcan⟩ := hfacts
    obtain ⟨hrx, hrw, hrh, hbound, hbot⟩ :=
      canPutAux_some p.config.maxWidth p.config.maxHeight s2.x a b
        (s2 :: rest2) 0 a rect hcan
    have hrw1 : 1 ≤ rect.w := by
      rcases hab with ⟨ha, hb⟩ | ⟨ha, hb⟩ <;> omega
    have hxw : rect.x + rect.w ≤ p.config.maxWidth := by omega
    obtain ⟨hchain, _⟩ := hinv
    refine ⟨?_, ?_⟩
    · show chainW 0 p.config.maxWidth
        (mergeSegs (p.skylines.take j ++ Skyline.mk rect.x (rect.bottom + 1)
          rect.w :: shrinkLoop (Skyline.mk rect.x (rect.bottom + 1) rect.w).right
            (p.skylines.drop j)))
      apply mergeSegs_chainW
      exact split_chainW (rect.bottom + 1) j p.skylines 0 p.config.maxWidth
        rect.x rect.w hchain ⟨s2, rest2, hdrop, hrx.symm⟩ hrw1 hxw
    · exact mergeSegs_noDupY _

/-- Every reset (with or without a resize) re-establishes the skyline
invariant: a single segment spanning the (possibly new) atlas width. -/
theorem skyline_reset_establishes (p : SkylinePacker) (r : Option Size) :
    SkyInv (p.reset r) := by
  cases r with
  | none =>
    refine ⟨⟨rfl, ?_⟩, by simp [SkylinePacker.reset]⟩
    show 0 + p.config.maxWidth = p.config.maxWidth
    omega
  | some sz =>
    refine ⟨⟨rfl, ?_⟩, by simp [SkylinePacker.reset]⟩
    show 0 + sz.w = sz.w
    omega

/-- Running any positive-size action sequence preserves the skyline
invariant. -/
theorem runActs_preserves :
    ∀ (acts : List SkyAct), (∀ a ∈ acts, a.positive) →
      ∀ (p : SkylinePacker), SkyInv p → SkyInv (p.runActs acts) := by
  intro acts
  induction acts with
  | nil => intro _ p hp; exact hp
  | cons a rest ih =>
    intro hpos p hp
    have hrest : ∀ x ∈ rest, x.positive :=
      fun x hx => hpos x (List.mem_cons_of_mem _ hx)
    cases a with
    | ins w h =>
      have hhead : (SkyAct.ins w h).positive := hpos _ (List.mem_cons_self _ _)
      exact ih hrest _ (skyline_insert_preserves p w h hhead.1 hhead.2 hp)
    | reset r =>
      exact ih hrest _ (skyline_reset_establishes p r)

/-- C5. After construction, after every reset, and after every insert of
positive-size requests (successful or not), the skyline segment list is
sorted left-to-right by `x`, tiles exactly the interval from `0` to the
atlas width with no gaps and no overlaps (`chainW 0 max_width`), and no two
consecutive segments have equal height. Zero-sized requests are excluded:
they reach the inclusive `bottom()/right()` arithmetic that the source
itself documents as ill-defined (underflow/panic). -/
theorem c5_skyline_invariant (cfg : PackerConfig) (acts : List SkyAct)
    (hpos : ∀ a ∈ acts, a.positive) :
    SkyInv ((SkylinePacker.new cfg).runActs acts) := by
  refine runActs_preserves acts hpos _ ⟨⟨rfl, ?_⟩, by simp [SkylinePacker.new]⟩
  show 0 + cfg.maxWidth = cfg.maxWidth
  omega

/-- C5 (witness): a concrete mixed trace — construction, two inserts, a
reset, one more insert — on a `10×10` atlas with flipping enabled. -/
theorem c5_skyline_invariant_witness :
    SkyInv ((SkylinePacker.new ⟨10, 10, true⟩).runActs
      [.ins 3 2, .ins 4 4, .reset none, .ins 2 8]) :=
  c5_skyline_invariant ⟨10, 10, true⟩ [.ins 3 2, .ins 4 4, .reset none, .ins 2 8]
    (by decide)

end Packr2
